import Mathlib

/-!
Verification of the Turing-tape simulator (`src/tape.c`) against its
natural-language specification.

The embedding below mirrors the C source function by function:

* `parse_instruc`, `load_instrucs` — the transition-table loader;
* `read_buf`, `write_buf` — the paging engine over the tape file;
* `step`, `runFuel` — the execution loop of `run`.

Modelling conventions, each noted again at the relevant definition:

* The tape file is a `List Nat` of byte values (0–255); the stream
  position is passed explicitly where the C relies on the `FILE*` cursor.
* `fseek(fp, start, SEEK_SET)` on a regular file succeeds for every
  `start ≥ 0` (also past end of file) and fails exactly when `start < 0`;
  both `read_buf` and `write_buf` are modelled with that behaviour, so the
  zero-padding `else` branch of the C `write_buf` is dead and not modelled.
* `fgetc` stores its result into a plain `char` in the C `read_buf`; on the
  signed-`char` platforms the program runs on, the byte `0xFF` (255) is then
  indistinguishable from `EOF` (-1).  The model reproduces this: byte 255
  takes the end-of-file branch.
* Writing with `fputc` past end of file extends the file; a seek past the
  end followed by a write fills the gap with NUL (0) bytes.
* The C parser copies fields into stack buffers without always writing a
  terminating NUL (`char state[3]`, the `opchars` VLA).  The model applies
  `atoi` to exactly the copied characters, i.e. the benign case in which the
  adjacent stack memory does not continue the number, and treats the length
  of `opchars` as the length of the copied suffix.
* `parse_instruc` returns the `(state, digit)` cell and the operation it
  would store into the global `instructions` array instead of mutating it;
  `load_instrucs` performs the store.  A cell the program never initialised
  is `none`.
-/

namespace TuringTape

def BUFFER_SIZE : Nat := 128

/-- `struct op` from tape.c: next state (`char`), digit to write,
direction (`false` = L, `true` = R), stop flag. -/
structure Op where
  state : Int
  val : Bool
  dir : Bool
  stop : Bool
deriving DecidableEq

/-- The digits parsed by `atoi` once whitespace and sign are consumed. -/
def atoiDigits : List Char → Nat → Nat
  | [], acc => acc
  | c :: cs, acc => if c.isDigit then atoiDigits cs (acc * 10 + (c.toNat - 48)) else acc

/-- C `atoi`: skip leading whitespace, optional sign, then a digit prefix. -/
def atoiF (s : List Char) : Int :=
  match s.dropWhile (fun c => c == ' ' || c == '\t' || c == '\n' || c == '\r') with
  | '-' :: rest => - (atoiDigits rest 0 : Int)
  | '+' :: rest => (atoiDigits rest 0 : Int)
  | s1 => (atoiDigits s1 0 : Int)

/-- Conversion of an `int` to a signed `char`, as in `(char) atoi(...)`:
wrap into `[-128, 128)`. -/
def toChar8 (n : Int) : Int := (n + 128) % 256 - 128

/-- The characters `fgets` stores for a buffer of `n + 1` bytes: at most `n`
characters, stopping after a newline. -/
def fgetsTake : Nat → List Char → List Char
  | 0, _ => []
  | _, [] => []
  | k + 1, c :: cs => if c = '\n' then [c] else c :: fgetsTake k cs

/-- `fgets(buf, n, fp)` on remaining input `s`: `none` at end of file,
otherwise the line read and the input left over. -/
def fgetsF (n : Nat) (s : List Char) : Option (List Char × List Char) :=
  if s.isEmpty then none
  else some (fgetsTake (n - 1) s, s.drop (fgetsTake (n - 1) s).length)

/-- The global `struct op (*instructions)[2]`, as a partial map:
`none` marks memory the program never initialised. -/
abbrev Table := Int → Nat → Option Op

/-- `instructions[instate][indigit] = curr_op`. -/
def updateTbl (t : Table) (s0 : Int) (d0 : Nat) (o : Op) : Table :=
  fun s d => if s = s0 ∧ d = d0 then some o else t s d

/-- The default fill performed by `load_instrucs` before any line is read:
every cell `(s, d)` with `0 ≤ s < ms`, `d < 2` becomes
"stay in `s`, write `d`, move right, do not stop". -/
def defaultTable (ms : Int) : Table :=
  fun s d => if 0 ≤ s ∧ s < ms ∧ d < 2 then some ⟨s, d == 1, true, false⟩ else none

/-- `parse_instruc` from tape.c.  Returns the cell `(instate, indigit)`
and the operation stored there, or `none` where the C returns 1. -/
def parse_instruc (max_states : Int) (instruc : List Char) : Option ((Int × Nat) × Op) :=
  if instruc.length < 10 then none else
  -- first state field: up to 3 characters before the first comma
  let pre1 := (instruc.take 3).takeWhile (fun c => c != ',')
  if instruc.getD pre1.length ' ' ≠ ',' then none else
  let instate : Int := atoiF pre1
  if instate ≥ max_states then none else
  let i1 := pre1.length + 1
  let d1 := instruc.getD i1 ' '
  if d1 = '0' ∨ d1 = '1' then
    if instruc.getD (i1 + 1) ' ' ≠ '-' ∨ instruc.getD (i1 + 2) ' ' ≠ '>' then none else
    let indigit : Nat := if d1 = '1' then 1 else 0
    let opchars := instruc.drop (i1 + 3)
    -- second state field: up to 3 characters before a comma, no comma check
    let pre2 := (opchars.take 3).takeWhile (fun c => c != ',')
    let cstate := toChar8 (atoiF pre2)
    if cstate ≥ max_states then none else
    let i2 := pre2.length + 1
    if opchars.length < i2 + 4 then none else
    let v := opchars.getD i2 ' '
    if (v = '0' ∨ v = '1') ∧ opchars.getD (i2 + 1) ' ' = ',' then
      let dc := opchars.getD (i2 + 2) ' '
      if dc = 'L' ∨ dc = 'R' then
        let i4 := i2 + 3
        let sc := opchars.getD i4 '\x00'
        if sc = '\n' ∨ sc = '\x7F' then
          some ((instate, indigit), ⟨cstate, v == '1', dc == 'R', false⟩)
        else
          if opchars.length < i4 + 3 then none
          else if sc ≠ 'S' ∨ opchars.getD (i4 + 1) '\x00' ≠ 'T' ∨
                  opchars.getD (i4 + 2) '\x00' ≠ 'O' ∨ opchars.getD (i4 + 3) '\x00' ≠ 'P' then none
          else some ((instate, indigit), ⟨cstate, v == '1', dc == 'R', true⟩)
      else none
    else none
  else none

/-- The `for (int l=0; l<max_states*2; l++)` loop of `load_instrucs`:
end of file breaks out with success, a bad line aborts the load. -/
def loadLoop (ms : Int) : Nat → Table → List Char → Option (Int × Table)
  | 0, tbl, _ => some (ms, tbl)
  | l + 1, tbl, input =>
    match fgetsF 20 input with
    | none => some (ms, tbl)
    | some (line, rest) =>
      match parse_instruc ms line with
      | none => none
      | some ((s0, d0), o) => loadLoop ms l (updateTbl tbl s0 d0 o) rest

/-- `load_instrucs` from tape.c: header line `STATES: N`, default fill,
then at most `N * 2` instruction lines. -/
def load_instrucs (src : List Char) : Option (Int × Table) :=
  match fgetsF 12 src with
  | none => none
  | some (first, rest) =>
    if first.take 8 = "STATES: ".toList then
      if toChar8 (atoiF (first.drop 8)) ≤ 0 then none
      else loadLoop (toChar8 (atoiF (first.drop 8)))
             ((toChar8 (atoiF (first.drop 8))).toNat * 2)
             (defaultTable (toChar8 (atoiF (first.drop 8)))) rest
    else none

/-- The read loop of `read_buf`: `'0'` and `'1'` become bits, end of file
(or the byte 255, see the `char` truncation note above) zero-pads the rest
of the window, any other byte is the fatal unrecognised-character error. -/
def readGo : List Nat → Nat → Option (List Bool)
  | _, 0 => some []
  | [], n + 1 => some (List.replicate (n + 1) false)
  | c :: rest, n + 1 =>
    if c = 48 then (readGo rest n).map (false :: ·)
    else if c = 49 then (readGo rest n).map (true :: ·)
    else if c = 255 then some (List.replicate (n + 1) false)
    else none

/-- `read_buf(start)` from tape.c on a file `f`: a negative seek fails and
yields the all-zero window; otherwise bytes are read from offset `start`. -/
def read_buf (f : List Nat) (start : Int) : Option (List Bool) :=
  if start < 0 then some (List.replicate BUFFER_SIZE false)
  else readGo (f.drop start.toNat) BUFFER_SIZE

/-- One `fputc` at stream position `p`: overwrite inside the file, extend at
or past the end (a gap left by a seek past the end is NUL-filled). -/
def putFile (f : List Nat) (p : Nat) (c : Nat) : List Nat :=
  if p < f.length then f.set p c else f ++ List.replicate (p - f.length) 0 ++ [c]

/-- A run of consecutive `fputc` calls starting at stream position `p`. -/
def writeChars : List Nat → List Nat → Nat → List Nat
  | [], f, _ => f
  | c :: cs, f, p => writeChars cs (putFile f p c) (p + 1)

/-- The window rendered as the characters `write_buf` emits. -/
def encodeBuf (buf : List Bool) : List Nat :=
  buf.map (fun b => if b then 49 else 48)

/-- `write_buf(start)` from tape.c.  For `start ≥ 0` the seek succeeds and
the window is written at `start`.  For `start < 0` the seek fails and the
shift branch runs: the whole file is read back, `write_buf(0)` writes the
window at the start, the old contents are appended — and then control falls
through to the main loop, which writes the window once more at the current
stream position (the end of the file). -/
def write_buf (f : List Nat) (start : Int) (buf : List Bool) : List Nat :=
  if start < 0 then
    writeChars (encodeBuf buf)
      (writeChars f (writeChars (encodeBuf buf) f 0) (encodeBuf buf).length)
      ((encodeBuf buf).length + f.length)
  else
    writeChars (encodeBuf buf) f start.toNat

/-- The mutable globals of tape.c during `run`: internal state, in-window
index `position`, window number `buf_pos`, the window `buffer`, the backing
tape file, and whether STOP has been reached. -/
structure Config where
  state : Int
  position : Int
  buf_pos : Int
  buffer : List Bool
  file : List Nat
  halted : Bool
deriving DecidableEq

/-- Base offset of the resident window plus the in-window index: the
machine's logical tape position as printed by `run`. -/
def logicalPos (c : Config) : Int := c.buf_pos * (BUFFER_SIZE : Int) + c.position

/-- One iteration of the `while (true)` loop of `run`: look the operation
up, write the digit, update state and position, then either stop (before
any window management) or swap windows when the index leaves `[0, 128)`.
`none` models touching an uninitialised table cell or a failing
`read_buf`. -/
def step (tbl : Table) (c : Config) : Option Config :=
  if c.halted then some c else
  let bit := c.buffer.getD c.position.toNat false
  match tbl c.state (if bit then 1 else 0) with
  | none => none
  | some op =>
    let buffer1 := c.buffer.set c.position.toNat op.val
    let pos1 := c.position + (if op.dir then 1 else -1)
    if op.stop then
      some { c with state := op.state, buffer := buffer1, position := pos1, halted := true }
    else if pos1 = (BUFFER_SIZE : Int) then
      match read_buf (write_buf c.file (c.buf_pos * (BUFFER_SIZE : Int)) buffer1)
          ((c.buf_pos + 1) * (BUFFER_SIZE : Int)) with
      | none => none
      | some nb =>
        some ⟨op.state, 0, c.buf_pos + 1, nb,
          write_buf c.file (c.buf_pos * (BUFFER_SIZE : Int)) buffer1, false⟩
    else if pos1 = -1 then
      match read_buf (write_buf c.file (c.buf_pos * (BUFFER_SIZE : Int)) buffer1)
          ((c.buf_pos - 1) * (BUFFER_SIZE : Int)) with
      | none => none
      | some nb =>
        some ⟨op.state, 0, c.buf_pos - 1, nb,
          write_buf c.file (c.buf_pos * (BUFFER_SIZE : Int)) buffer1, false⟩
    else
      some { c with state := op.state, buffer := buffer1, position := pos1, halted := false }

/-- Iterate `step` for at most `fuel` iterations; a halted configuration is
returned unchanged. -/
def runFuel (tbl : Table) : Nat → Config → Option Config
  | 0, c => some c
  | n + 1, c => if c.halted then some c else (step tbl c).bind (runFuel tbl n)

/-- `load_tape` followed by the initial globals of `run`: window 0 paged in,
state 0, position 0. -/
def mkInit (f : List Nat) : Option Config :=
  (read_buf f 0).map (fun b => ⟨0, 0, 0, b, f, false⟩)

/-! ### Concrete instruction files, tables and configurations used below -/

/-- A one-state machine that always moves left without stopping. -/
def srcC1 : List Char := ("STATES: 1\n0,0->0,1,L\n0,1->0,1,R\n").toList

/-- The transition table `srcC1` loads. -/
def tblC1 : Table :=
  match load_instrucs srcC1 with
  | some r => r.2
  | none => fun _ _ => none

/-- The machine of `srcC1` started on a tape file of eight `'0'` bytes. -/
def cfgC1 : Config :=
  match mkInit (List.replicate 8 48) with
  | some c => c
  | none => ⟨0, 0, 0, [], [], true⟩

/-- A tape file with recognisable contents, for the leftward-growth flush. -/
def fileC2 : List Nat := [49, 49, 48, 48, 49, 48, 49, 49]

/-- An all-zero window. -/
def bufZero : List Bool := List.replicate BUFFER_SIZE false

/-- Scenario C of the spec: header `STATES: 4` followed by only six valid
instruction lines where `4 * 2 = 8` are expected. -/
def srcC3 : List Char :=
  ("STATES: 4\n0,0->0,1,R\n0,1->1,0,L\n1,0->2,1,R\n1,1->3,0,R\n2,0->0,0,L\n2,1->1,1,R\n").toList

/-- An instruction line exactly as the loader consumes one: newline
terminated, short enough (at most 18 bytes plus the newline) for the
20-byte `fgets` buffer to read it whole, and parsed successfully by
`parse_instruc`. -/
def ValidLine (ms : Int) (li : List Char) : Prop :=
  ∃ body : List Char, li = body ++ ['\n'] ∧ body.length ≤ 18 ∧ '\n' ∉ body ∧
    (parse_instruc ms li).isSome = true

/-- The table update one line of the loader's loop performs; a failing
parse (which the loader turns into an abort) leaves the table unchanged. -/
def applyLine (ms : Int) (t : Table) (li : List Char) : Table :=
  match parse_instruc ms li with
  | some ((s0, d0), o) => updateTbl t s0 d0 o
  | none => t

/-- The digit part of `srcC3`'s header line. -/
def digitsC3 : List Char := ['4']

/-- The six instruction lines of `srcC3`. -/
def linesC3 : List (List Char) :=
  [("0,0->0,1,R\n").toList, ("0,1->1,0,L\n").toList, ("1,0->2,1,R\n").toList,
   ("1,1->3,0,R\n").toList, ("2,0->0,0,L\n").toList, ("2,1->1,1,R\n").toList]

/-- Scenario A of the spec, verbatim, space before `STOP` included. -/
def srcC4 : List Char :=
  ("STATES: 2\n0,0->0,1,R\n0,1->1,0,R\n1,0->1,1,L\n1,1->1,0,R STOP\n").toList

/-- A one-state machine whose very first operation moves left and stops. -/
def srcC10 : List Char := ("STATES: 1\n0,0->0,1,LSTOP\n0,1->0,1,R\n").toList

/-- The transition table `srcC10` loads. -/
def tblC10 : Table :=
  match load_instrucs srcC10 with
  | some r => r.2
  | none => fun _ _ => none

/-- The machine of `srcC10` started on a tape file of eight `'0'` bytes. -/
def cfgC10 : Config :=
  match mkInit (List.replicate 8 48) with
  | some c => c
  | none => ⟨0, 0, 0, [], [], true⟩

/-- A minimal valid instruction file: header only, zero instruction lines. -/
def srcW : List Char := ("STATES: 1\n").toList

/-- The transition table `srcW` loads. -/
def tblW : Table :=
  match load_instrucs srcW with
  | some r => r.2
  | none => fun _ _ => none

/-! ### Helper lemmas -/

lemma getD_replicate_false (n i : Nat) : (List.replicate n false).getD i false = false := by
  by_cases h : i < (List.replicate n false).length
  · rw [List.getD_eq_getElem _ _ h, List.getElem_replicate]
  · exact List.getD_eq_default _ _ (Nat.le_of_not_lt h)

lemma readGo_pads_zero :
    ∀ (n : Nat) (l : List Nat) (bl : List Bool), readGo l n = some bl →
      ∀ i : Nat, l.length ≤ i → bl.getD i false = false := by
  intro n
  induction n with
  | zero =>
    intro l bl h i _
    have hb : bl = [] := by cases l <;> simpa [readGo, eq_comm] using h
    subst hb
    exact List.getD_nil
  | succ n ih =>
    intro l bl h i hi
    cases l with
    | nil =>
      have hb : bl = List.replicate (n + 1) false := by simpa [readGo, eq_comm] using h
      subst hb
      exact getD_replicate_false _ _
    | cons c rest =>
      simp only [readGo] at h
      split_ifs at h with h48 h49 h255
      · rcases Option.map_eq_some'.mp h with ⟨bl2, hr, hbl⟩
        subst hbl
        cases i with
        | zero => simp at hi
        | succ j =>
          rw [List.getD_cons_succ]
          exact ih rest bl2 hr j (by simp at hi; omega)
      · rcases Option.map_eq_some'.mp h with ⟨bl2, hr, hbl⟩
        subst hbl
        cases i with
        | zero => simp at hi
        | succ j =>
          rw [List.getD_cons_succ]
          exact ih rest bl2 hr j (by simp at hi; omega)
      · have hb : bl = List.replicate (n + 1) false := by simpa [eq_comm] using h
        subst hb
        exact getD_replicate_false _ _

lemma getElem?_some_lt : ∀ (l : List Nat) (n a : Nat), l[n]? = some a → n < l.length := by
  intro l
  induction l with
  | nil => intro n a h; simp at h
  | cons x xs ih =>
    intro n a h
    cases n with
    | zero => simp
    | succ m => simpa using ih m a (by simpa using h)

lemma set_self_eq : ∀ (l : List Nat) (n c : Nat), l[n]? = some c → l.set n c = l := by
  intro l
  induction l with
  | nil => intro n c h; simp at h
  | cons x xs ih =>
    intro n c h
    cases n with
    | zero =>
      have hx : x = c := by simpa using h
      simp [List.set, hx]
    | succ m =>
      have : xs.set m c = xs := ih m c (by simpa using h)
      simp [List.set, this]

lemma putFile_getElem_self (f : List Nat) (p c : Nat) : (putFile f p c)[p]? = some c := by
  unfold putFile
  split
  · exact List.getElem?_set_eq_of_lt c (by assumption)
  · rename_i hp
    have hlen : (f ++ List.replicate (p - f.length) 0).length = p := by
      simp [List.length_append, List.length_replicate]
      omega
    rw [List.getElem?_append_right (by omega), hlen]
    simp

lemma putFile_getElem_lt (f : List Nat) (p q c a : Nat) (hq : q < p) (h : f[q]? = some a) :
    (putFile f p c)[q]? = some a := by
  unfold putFile
  split
  · rw [List.getElem?_set_ne (by omega)]
    exact h
  · have hql : q < f.length := getElem?_some_lt f q a h
    rw [List.getElem?_append]
    rw [if_pos (by simp [List.length_append, List.length_replicate]; omega)]
    rw [List.getElem?_append, if_pos hql]
    exact h

lemma putFile_lt (f : List Nat) (p c : Nat) (h : p < f.length) : putFile f p c = f.set p c := by
  unfold putFile
  rw [if_pos h]

lemma putFile_length (f : List Nat) (p c : Nat) : (putFile f p c).length = max f.length (p + 1) := by
  unfold putFile
  split
  · rw [List.length_set]
    omega
  · simp [List.length_append, List.length_replicate]
    omega

lemma wc_getElem_mono :
    ∀ (cs : List Nat) (f : List Nat) (p q a : Nat), q < p → f[q]? = some a →
      (writeChars cs f p)[q]? = some a := by
  intro cs
  induction cs with
  | nil => intro f p q a _ h; exact h
  | cons c cs ih =>
    intro f p q a h1 h2
    show (writeChars cs (putFile f p c) (p + 1))[q]? = some a
    exact ih (putFile f p c) (p + 1) q a (by omega) (putFile_getElem_lt f p q c a h1 h2)

lemma wc_idem : ∀ (cs f : List Nat) (p : Nat),
    writeChars cs (writeChars cs f p) p = writeChars cs f p := by
  intro cs
  induction cs with
  | nil => intro f p; rfl
  | cons c cs ih =>
    intro f p
    show writeChars cs (putFile (writeChars cs (putFile f p c) (p + 1)) p c) (p + 1) =
      writeChars cs (putFile f p c) (p + 1)
    have h2 : (writeChars cs (putFile f p c) (p + 1))[p]? = some c :=
      wc_getElem_mono cs _ (p + 1) p c (Nat.lt_succ_self p) (putFile_getElem_self f p c)
    have h3 : p < (writeChars cs (putFile f p c) (p + 1)).length := getElem?_some_lt _ _ _ h2
    have h4 : putFile (writeChars cs (putFile f p c) (p + 1)) p c =
        writeChars cs (putFile f p c) (p + 1) := by
      rw [putFile_lt _ _ _ h3]
      exact set_self_eq _ _ _ h2
    rw [h4]
    exact ih (putFile f p c) (p + 1)

lemma wc_length : ∀ (cs f : List Nat) (p : Nat), 1 ≤ cs.length →
    (writeChars cs f p).length = max f.length (p + cs.length) := by
  intro cs
  induction cs with
  | nil => intro f p h; simp at h
  | cons c cs ih =>
    intro f p _
    rcases cs with _ | ⟨c2, cs2⟩
    · show (putFile f p c).length = max f.length (p + 1)
      exact putFile_length f p c
    · show (writeChars (c2 :: cs2) (putFile f p c) (p + 1)).length = _
      rw [ih (putFile f p c) (p + 1) (by simp)]
      rw [putFile_length]
      simp only [List.length_cons]
      omega

lemma write_buf_neg_length (f : List Nat) (buf : List Bool) (start : Int) (hs : start < 0)
    (hb : 1 ≤ buf.length) (hf : 1 ≤ f.length) :
    (write_buf f start buf).length = buf.length + f.length + buf.length := by
  have e1 : (encodeBuf buf).length = buf.length := by simp [encodeBuf]
  unfold write_buf
  rw [if_pos hs]
  rw [wc_length _ _ _ (by omega)]
  rw [wc_length _ _ _ (by omega)]
  rw [wc_length _ _ _ (by omega)]
  rw [e1]
  omega

lemma fgetsTake_newline :
    ∀ (body : List Char) (k : Nat) (rest : List Char), body.length < k → '\n' ∉ body →
      fgetsTake k (body ++ '\n' :: rest) = body ++ ['\n'] := by
  intro body
  induction body with
  | nil =>
    intro k rest hk _
    cases k with
    | zero => simp at hk
    | succ k => simp [fgetsTake]
  | cons c body ih =>
    intro k rest hk hn
    cases k with
    | zero => simp at hk
    | succ k =>
      have hc : ¬ c = '\n' := by
        intro hh
        exact hn (by rw [hh]; exact List.mem_cons_self _ _)
      rw [List.cons_append]
      simp only [fgetsTake]
      rw [if_neg hc]
      rw [ih k rest (by simp only [List.length_cons] at hk; omega)
        (fun hm => hn (List.mem_cons_of_mem c hm))]
      rfl

lemma fgetsF_line (body rest : List Char) (n : Nat) (hb : body.length + 1 < n)
    (hn : '\n' ∉ body) :
    fgetsF n (body ++ '\n' :: rest) = some (body ++ ['\n'], rest) := by
  have h2 : ¬ ((body ++ '\n' :: rest).isEmpty = true) := by cases body <;> simp
  unfold fgetsF
  rw [if_neg h2]
  rw [fgetsTake_newline body (n - 1) rest (by omega) hn]
  have hassoc : body ++ '\n' :: rest = (body ++ ['\n']) ++ rest := by simp
  rw [hassoc, List.drop_left]

lemma loadLoop_flatten :
    ∀ (lines : List (List Char)) (ms : Int) (l : Nat) (tbl : Table),
      lines.length ≤ l → (∀ li ∈ lines, ValidLine ms li) →
      loadLoop ms l tbl lines.flatten = some (ms, lines.foldl (applyLine ms) tbl) := by
  intro lines
  induction lines with
  | nil =>
    intro ms l tbl _ _
    cases l with
    | zero => simp [loadLoop]
    | succ l => simp [loadLoop, fgetsF]
  | cons li lines ih =>
    intro ms l tbl hlen hv
    obtain ⟨body, hbody, hblen, hbnl, hparse⟩ := hv li (List.mem_cons_self li lines)
    obtain ⟨ko, hko⟩ := Option.isSome_iff_exists.mp hparse
    obtain ⟨⟨s0, d0⟩, o⟩ := ko
    cases l with
    | zero => simp at hlen
    | succ l =>
      have hf : fgetsF 20 ((li :: lines).flatten) = some (li, lines.flatten) := by
        show fgetsF 20 (li ++ lines.flatten) = some (li, lines.flatten)
        rw [hbody]
        have hassoc : (body ++ ['\n']) ++ lines.flatten = body ++ '\n' :: lines.flatten := by
          simp
        rw [hassoc, fgetsF_line body lines.flatten 20 (by omega) hbnl]
      have ha : applyLine ms tbl li = updateTbl tbl s0 d0 o := by
        unfold applyLine
        rw [hko]
      simp only [loadLoop, hf, hko, List.foldl_cons, ha]
      exact ih ms l (updateTbl tbl s0 d0 o) (by simp only [List.length_cons] at hlen; omega)
        (fun x hx => hv x (List.mem_cons_of_mem _ hx))

lemma foldl_applyLine_unassigned :
    ∀ (lines : List (List Char)) (ms : Int) (tbl : Table) (s : Int) (d : Nat),
      (∀ li ∈ lines, (parse_instruc ms li).map Prod.fst ≠ some (s, d)) →
      lines.foldl (applyLine ms) tbl s d = tbl s d := by
  intro lines
  induction lines with
  | nil => intro ms tbl s d _; rfl
  | cons li lines ih =>
    intro ms tbl s d h
    have hli := h li (List.mem_cons_self li lines)
    have hstep : applyLine ms tbl li s d = tbl s d := by
      cases hp : parse_instruc ms li with
      | none => unfold applyLine; rw [hp]
      | some ko =>
        obtain ⟨⟨s0, d0⟩, o⟩ := ko
        rw [hp] at hli
        simp only [Option.map_some', ne_eq, Option.some.injEq, Prod.mk.injEq] at hli
        show applyLine ms tbl li s d = tbl s d
        unfold applyLine
        rw [hp]
        show updateTbl tbl s0 d0 o s d = tbl s d
        unfold updateTbl
        rw [if_neg]
        rintro ⟨h1, h2⟩
        exact hli ⟨h1.symm, h2.symm⟩
    rw [List.foldl_cons,
      ih ms (applyLine ms tbl li) s d (fun x hx => h x (List.mem_cons_of_mem _ hx)), hstep]

lemma updateTbl_isSome (t : Table) (s0 : Int) (d0 : Nat) (o : Op) (s : Int) (d : Nat)
    (h : (t s d).isSome = true) : (updateTbl t s0 d0 o s d).isSome = true := by
  unfold updateTbl
  split
  · rfl
  · exact h

lemma loadLoop_mono :
    ∀ (l : Nat) (ms : Int) (tbl : Table) (input : List Char) (res : Int × Table),
      loadLoop ms l tbl input = some res →
      res.1 = ms ∧ ∀ s d, (tbl s d).isSome = true → (res.2 s d).isSome = true := by
  intro l
  induction l with
  | zero =>
    intro ms tbl input res h
    obtain ⟨r1, r2⟩ := res
    simp only [loadLoop, Option.some.injEq, Prod.mk.injEq] at h
    obtain ⟨h1, h2⟩ := h
    subst h1
    subst h2
    exact ⟨rfl, fun _ _ hh => hh⟩
  | succ l ih =>
    intro ms tbl input res h
    simp only [loadLoop] at h
    split at h
    · obtain ⟨r1, r2⟩ := res
      simp only [Option.some.injEq, Prod.mk.injEq] at h
      obtain ⟨h1, h2⟩ := h
      subst h1
      subst h2
      exact ⟨rfl, fun _ _ hh => hh⟩
    · split at h
      · exact absurd h (by simp)
      · obtain ⟨hm, hmono⟩ := ih _ _ _ _ h
        exact ⟨hm, fun s d hh => hmono s d (updateTbl_isSome _ _ _ _ _ _ hh)⟩

/-! ### Claim theorems -/

/-- Claim C1 (code bug): a non-halting step whose Left move crosses the
window boundary changes the logical tape position by `-BUFFER_SIZE`, not by
`-1`.  The selected operation of `srcC1` at `(0, 0)` moves Left and does not
halt, the machine starts at logical position 0, and after one step of `run`
the logical position is `-128`: the leftward swap sets the in-window index
to `0` instead of `BUFFER_SIZE - 1`. -/
theorem c1_left_window_crossing_teleports :
    tblC1 0 0 = some ⟨0, true, false, false⟩ ∧
    logicalPos cfgC1 = 0 ∧
    (step tblC1 cfgC1).map logicalPos = some (-128) ∧
    (-128 : Int) ≠ 0 - 1 := by decide

set_option maxRecDepth 8000 in
/-- Claim C2 (code bug): flushing a window at the negative base offset
`-128` over an 8-byte file does put the window at the start of the file and
the old contents right after it, but the fall-through at the end of
`write_buf` appends the window a second time, so the file grows by
`2 * BUFFER_SIZE = 256` bytes instead of `BUFFER_SIZE = 128`. -/
theorem c2_negative_flush_grows_by_two_buffers :
    write_buf fileC2 (-128) bufZero =
      List.replicate 128 48 ++ fileC2 ++ List.replicate 128 48 ∧
    (write_buf fileC2 (-128) bufZero).length = fileC2.length + 2 * BUFFER_SIZE ∧
    fileC2.length + 2 * BUFFER_SIZE ≠ fileC2.length + BUFFER_SIZE := by decide

/-- Claim C3 counterexample: the truncated instruction file of scenario C
(header `STATES: 4`, only six instruction lines) loads successfully — the
load loop breaks out on end of file and returns success, contradicting the
claimed truncation error. -/
theorem c3_truncated_file_loads_successfully :
    (load_instrucs srcC3).isSome = true := by decide

/-- Claim C3 (amended): for EVERY instruction file made of a `STATES:`
header (whose digits fit the 12-byte `fgets` buffer and give a positive
state count after the `char` cast) followed by fewer than `max_states * 2`
valid instruction lines — newline-terminated, short enough to be read whole,
each parsed successfully — with end of input after them, loading SUCCEEDS:
the loop breaks out at end of file and returns success, the resulting table
is the default fill overlaid with exactly the supplied lines' assignments,
and every cell not assigned by any supplied line keeps its default
operation. -/
theorem c3_truncated_file_default_fills (ms : Int) (digits : List Char)
    (lines : List (List Char))
    (hdef : ms = toChar8 (atoiF (digits ++ ['\n'])))
    (hd1 : digits.length ≤ 2) (hd2 : '\n' ∉ digits) (hms : 0 < ms)
    (hlines : ∀ li ∈ lines, ValidLine ms li)
    (hk : lines.length < ms.toNat * 2) :
    load_instrucs ("STATES: ".toList ++ digits ++ '\n' :: lines.flatten) =
      some (ms, lines.foldl (applyLine ms) (defaultTable ms)) ∧
    ∀ s d, (∀ li ∈ lines, (parse_instruc ms li).map Prod.fst ≠ some (s, d)) →
      lines.foldl (applyLine ms) (defaultTable ms) s d = defaultTable ms s d := by
  refine ⟨?_, fun s d h => foldl_applyLine_unassigned lines ms (defaultTable ms) s d h⟩
  have hnl : '\n' ∉ "STATES: ".toList ++ digits := by
    intro hmem
    rcases List.mem_append.mp hmem with hmem | hmem
    · exact absurd hmem (by decide)
    · exact hd2 hmem
  have hhdr : fgetsF 12 (("STATES: ".toList ++ digits) ++ '\n' :: lines.flatten) =
      some (("STATES: ".toList ++ digits) ++ ['\n'], lines.flatten) :=
    fgetsF_line _ _ 12 (by simp only [List.length_append]; simp; omega) hnl
  have htake : ((("STATES: ".toList ++ digits) ++ ['\n'])).take 8 = "STATES: ".toList := by
    rw [List.append_assoc, show (8 : Nat) = ("STATES: ".toList).length from rfl,
      List.take_left]
  have hdrop : ((("STATES: ".toList ++ digits) ++ ['\n'])).drop 8 = digits ++ ['\n'] := by
    rw [List.append_assoc, show (8 : Nat) = ("STATES: ".toList).length from rfl,
      List.drop_left]
  simp only [load_instrucs, hhdr]
  rw [htake, if_pos rfl, hdrop, ← hdef, if_neg (by omega : ¬ ms ≤ 0)]
  exact loadLoop_flatten lines ms (ms.toNat * 2) (defaultTable ms) (by omega) hlines

/-- Witness for C3: scenario C's file `srcC3` is exactly the header digits
`4` followed by the six lines of `linesC3`; applying the amended theorem to
it shows the load succeeding with the fold of the six lines over the
default table, and the never-assigned cell `(3, 0)` keeping its default. -/
theorem c3_truncated_file_default_fills_witness :
    srcC3 = "STATES: ".toList ++ digitsC3 ++ '\n' :: linesC3.flatten ∧
    load_instrucs srcC3 = some (4, linesC3.foldl (applyLine 4) (defaultTable 4)) ∧
    linesC3.foldl (applyLine 4) (defaultTable 4) 3 0 = defaultTable 4 3 0 := by
  have hmain := c3_truncated_file_default_fills 4 digitsC3 linesC3 (by decide) (by decide)
    (by decide) (by decide)
    (by
      intro li hli
      simp only [linesC3, List.mem_cons, List.not_mem_nil, or_false] at hli
      rcases hli with rfl | rfl | rfl | rfl | rfl | rfl
      · exact ⟨("0,0->0,1,R").toList, by decide⟩
      · exact ⟨("0,1->1,0,L").toList, by decide⟩
      · exact ⟨("1,0->2,1,R").toList, by decide⟩
      · exact ⟨("1,1->3,0,R").toList, by decide⟩
      · exact ⟨("2,0->0,0,L").toList, by decide⟩
      · exact ⟨("2,1->1,1,R").toList, by decide⟩)
    (by decide)
  refine ⟨by decide, ?_, hmain.2 3 0 ?_⟩
  · rw [show srcC3 = "STATES: ".toList ++ digitsC3 ++ '\n' :: linesC3.flatten from by decide]
    exact hmain.1
  · intro li hli
    simp only [linesC3, List.mem_cons, List.not_mem_nil, or_false] at hli
    rcases hli with rfl | rfl | rfl | rfl | rfl | rfl <;> decide

/-- Claim C4 counterexample: the instruction file of scenario A does not
even load — `load_instrucs` rejects it, because its fourth line has a space
between the direction and `STOP`. -/
theorem c4_scenario_a_fails_to_load :
    (load_instrucs srcC4).isNone = true := by decide

/-- Claim C4 (amended): the line `1,1->1,0,R STOP` is rejected by the
parser — `STOP` must immediately follow the direction — while the same line
without the space parses as the halting operation `(1,1) ↦ (1,0,R,STOP)`.
Hence the scenario-A run never starts. -/
theorem c4_space_before_stop_rejected :
    parse_instruc 2 ("1,1->1,0,R STOP\n").toList = none ∧
    parse_instruc 2 ("1,1->1,0,RSTOP\n").toList =
      some ((1, 1), ⟨1, false, true, true⟩) := by decide

/-- Claim C5 (code bug): the line `0,0->-1,1,R` has the next-state field
`-1`, outside `[0, N)` for every `N`, yet with `max_states = 2` the parser
accepts it — the range guard only tests `>= max_states` — and the cell
`(0, 0)` is written with next state `-1`. -/
theorem c5_negative_state_accepted :
    parse_instruc 2 ("0,0->-1,1,R\n").toList =
      some ((0, 0), ⟨-1, true, true, false⟩) ∧
    ¬ (0 : Int) ≤ -1 := by decide

/-- Claim C7 (code bug): a tape file whose first byte is `0xFF` (neither
`'0'` nor `'1'` nor end-of-file) loads without any corrupt-tape error: the
byte is stored into a `char` and becomes indistinguishable from `EOF`, so
the whole window is silently zero-filled — the `'1'` bytes after it are
ignored as well.  A byte such as `'A'` (65) is rejected, showing the
corrupt-tape check itself is live. -/
theorem c7_byte_255_not_rejected :
    read_buf (255 :: List.replicate 4 49) 0 = some (List.replicate BUFFER_SIZE false) ∧
    read_buf [65] 0 = none := by decide

/-- Claim C10 (code bug): with the machine of `srcC10` (first operation
moves Left and stops) started at position 0, the run terminates after one
step with the in-window index `-1`, which is outside `[0, BUFFER_SIZE)`:
the stop test runs before the window-boundary renormalisation, so the
post-run report reads `buffer[-1]`. -/
theorem c10_halt_position_out_of_window :
    (runFuel tblC10 5 cfgC10).map (fun c => (c.halted, c.position)) = some (true, -1) ∧
    ¬ (0 ≤ (-1 : Int) ∧ (-1 : Int) < (BUFFER_SIZE : Int)) := by decide

/-- Claim C6 (confirmed): any in-window index of a successfully loaded
window that corresponds to a logical tape position never materialised in
the file — the whole window when the base offset is negative, and every
index at or past end of file otherwise — reads as the bit 0. -/
theorem c6_unwritten_reads_zero (f : List Nat) (start : Int) (buf : List Bool) (i : Nat)
    (h : read_buf f start = some buf) (_hi : i < BUFFER_SIZE)
    (hu : start < 0 ∨ (f.length : Int) ≤ start + i) :
    buf.getD i false = false := by
  unfold read_buf at h
  by_cases hs : start < 0
  · rw [if_pos hs] at h
    have hb : buf = List.replicate BUFFER_SIZE false := by simpa [eq_comm] using h
    subst hb
    exact getD_replicate_false _ _
  · rw [if_neg hs] at h
    rcases hu with h1 | h2
    · exact absurd h1 hs
    · refine readGo_pads_zero BUFFER_SIZE _ _ h i ?_
      rw [List.length_drop]
      omega

/-- Witness for C6: the window at base offset `-128` of the two-byte tape
file `"01"` loads successfully, and its sixth cell — the logical position
`-123`, never written — reads 0. -/
theorem c6_unwritten_reads_zero_witness :
    read_buf ([48, 49] : List Nat) (-128) = some (List.replicate BUFFER_SIZE false) ∧
    (List.replicate BUFFER_SIZE false).getD 5 false = false :=
  ⟨by decide,
    c6_unwritten_reads_zero [48, 49] (-128) (List.replicate BUFFER_SIZE false) 5
      (by decide) (by decide) (Or.inl (by decide))⟩

/-- Claim C8 (confirmed): whenever `load_instrucs` succeeds with
`max_states = ms`, every cell `(s, d)` with `0 ≤ s < ms` and `d < 2` of the
resulting table holds a defined operation — the loader default-fills the
whole table before reading any instruction line, and lines only overwrite
cells. -/
theorem c8_lookup_total (src : List Char) (ms : Int) (tbl : Table) (s : Int) (d : Nat)
    (h : load_instrucs src = some (ms, tbl)) (hs0 : 0 ≤ s) (hs : s < ms) (hd : d < 2) :
    (tbl s d).isSome = true := by
  unfold load_instrucs at h
  split at h
  · simp at h
  · split at h
    · split at h
      · simp at h
      · obtain ⟨hm, hmono⟩ := loadLoop_mono _ _ _ _ _ h
        refine hmono s d ?_
        unfold defaultTable
        rw [if_pos ⟨hs0, hm ▸ hs, hd⟩]
        rfl
    · simp at h

/-- Witness for C8: the header-only instruction file `srcW` loads with
`max_states = 1`, and the cell `(0, 1)` — never assigned by any line — is
defined. -/
theorem c8_lookup_total_witness : (tblW 0 1).isSome = true :=
  c8_lookup_total srcW 1 tblW 0 1 rfl (by decide) (by decide) (by decide)

/-- Claim C9 counterexample: flushing the same unmodified all-zero window
twice at the base offset `-128` over the two-byte file `"01"` does not
leave the file unchanged — every negative-offset flush shifts the file and
appends, so the second flush produces different (longer: 514 bytes instead
of 258) contents. -/
theorem c9_negative_flush_not_idempotent :
    write_buf (write_buf [48, 49] (-128) bufZero) (-128) bufZero ≠
      write_buf [48, 49] (-128) bufZero := by
  intro heq
  have hbz : bufZero.length = 128 := by simp [bufZero, BUFFER_SIZE]
  have hf2 : ([48, 49] : List Nat).length = 2 := rfl
  have h1 : (write_buf [48, 49] (-128) bufZero).length = 258 := by
    rw [write_buf_neg_length [48, 49] bufZero (-128) (by norm_num) (by omega) (by omega)]
    omega
  have h2 : (write_buf (write_buf [48, 49] (-128) bufZero) (-128) bufZero).length = 514 := by
    rw [write_buf_neg_length _ bufZero (-128) (by norm_num) (by omega) (by omega)]
    omega
  have hl := congrArg List.length heq
  rw [h1, h2] at hl
  exact absurd hl (by norm_num)

/-- Claim C9 (amended): flushing the same unmodified window twice in
succession at the same non-negative base offset leaves the backing file
with byte content identical to that after the first flush; at a negative
base offset each flush shifts and grows the file, so the contents differ
(see the counterexample). -/
theorem c9_flush_idempotent_nonneg (f : List Nat) (start : Int) (buf : List Bool)
    (h : 0 ≤ start) :
    write_buf (write_buf f start buf) start buf = write_buf f start buf := by
  unfold write_buf
  simp only [if_neg (not_lt.mpr h)]
  exact wc_idem _ _ _

/-- Witness for C9: flushing an all-zero window twice at base offset 0 over
the one-byte file `"1"` gives the same file as flushing it once. -/
theorem c9_flush_idempotent_nonneg_witness :
    write_buf (write_buf [49] 0 bufZero) 0 bufZero = write_buf [49] 0 bufZero :=
  c9_flush_idempotent_nonneg [49] 0 bufZero (by decide)

end TuringTape
